import Mathlib

/-!
Shallow embedding of `scripts/mc_bootstrap.py` (Monte Carlo bootstrap
analysis).  Machine doubles are modelled by exact rationals; the pandas
NaN/Infinity cell states get an explicit inductive type; the numpy legacy
global random generator is modelled as a stream of raw draws plus a cursor.
-/

namespace McBootstrap

/-- One pandas cell of a returns column: a finite value, an infinity, or NaN
(missing).  Exact rationals stand in for IEEE doubles. -/
inductive PyFloat
| nan
| inf
| ninf
| val (q : ℚ)
deriving DecidableEq

/-- `Series.dropna()`: removes the NaN (missing) entries; infinities are kept
(pandas does not treat them as NA). -/
def dropna (l : List PyFloat) : List PyFloat :=
  l.filter (fun x => x != PyFloat.nan)

/-- One row of the trades CSV, restricted to the columns
`prepare_returns_data` reads: the `is_open` flag and the two candidate
returns columns. -/
structure TradeRow where
  is_open : ℕ
  r_multiple : PyFloat
  close_profit : PyFloat
deriving DecidableEq

/-- The loaded trades DataFrame: whether the `r_multiple` column is present,
and the rows. -/
structure TradeFrame where
  has_r_multiple : Bool
  rows : List TradeRow
deriving DecidableEq

/-- `prepare_returns_data` (mc_bootstrap.py lines 44-82): keep the closed
trades, pick the `r_multiple` column when present else `close_profit`, apply
`dropna()`, and raise when there is no closed trade or no value left. -/
def prepare_returns_data (df : TradeFrame) : Except String (List PyFloat) :=
  let closed_trades := df.rows.filter (fun t => t.is_open == 0)
  if closed_trades.length = 0 then Except.error "No closed trades found"
  else
    let returns := if df.has_r_multiple
      then dropna (closed_trades.map (fun t => t.r_multiple))
      else dropna (closed_trades.map (fun t => t.close_profit))
    if returns.length = 0 then Except.error "No valid returns data found"
    else Except.ok returns

/-- `np.min` of a non-empty array (0 on the empty array, which the pipeline
never reaches). -/
def listMin : List ℚ → ℚ
| [] => 0
| x :: xs => xs.foldl min x

/-- `np.cumsum`, with the running partial sum as accumulator. -/
def cumsum_from (acc : ℚ) : List ℚ → List ℚ
| [] => []
| x :: xs => (acc + x) :: cumsum_from (acc + x) xs

/-- `np.cumsum(sim_returns)`. -/
def cumsum (l : List ℚ) : List ℚ := cumsum_from 0 l

/-- `np.concatenate([[0], np.cumsum(sim_returns)])` (line 116). -/
def equity_curve (sim_returns : List ℚ) : List ℚ := 0 :: cumsum sim_returns

/-- `np.maximum.accumulate`, after the first element. -/
def running_max_from (m : ℚ) : List ℚ → List ℚ
| [] => []
| x :: xs => max m x :: running_max_from (max m x) xs

/-- `np.maximum.accumulate(equity_curve)` (line 123). -/
def running_max : List ℚ → List ℚ
| [] => []
| x :: xs => x :: running_max_from x xs

/-- `drawdown = equity_curve - running_max` (line 124). -/
def drawdown (e : List ℚ) : List ℚ := List.zipWith (· - ·) e (running_max e)

/-- `np.min(drawdown)` of one equity curve (line 125). -/
def max_drawdown (e : List ℚ) : ℚ := listMin (drawdown e)

/-- Ascending insertion into a sorted list (helper for `np.sort`). -/
def insertSorted (x : ℚ) : List ℚ → List ℚ
| [] => [x]
| y :: ys => if x ≤ y then x :: y :: ys else y :: insertSorted x ys

/-- The ascending sort used by `np.percentile`. -/
def sortQ : List ℚ → List ℚ
| [] => []
| x :: xs => insertSorted x (sortQ xs)

/-- `np.mean`: sum divided by length.  On the empty array numpy yields NaN
with a warning; here the rational division by zero gives 0, and the only
empty-array call sites are on paths that end in the surrounding except
branch before the value is observed. -/
def np_mean (l : List ℚ) : ℚ := l.sum / (l.length : ℚ)

/-- The square of `np.std` (population variance).  `np.std` itself is its
square root and is stored symbolically (`PyVal.sqrtNum`). -/
def np_variance (l : List ℚ) : ℚ :=
  np_mean (l.map (fun x => (x - np_mean l) ^ 2))

/-- The fractional order-statistic position `h = q/100 * (n-1)` used by
`np.percentile`. -/
def percentilePos (l : List ℚ) (q : ℚ) : ℚ :=
  q / 100 * ((l.length : ℚ) - 1)

/-- The lower order-statistic index `i = floor h` used by `np.percentile`. -/
def percentileIdx (l : List ℚ) (q : ℚ) : ℕ :=
  (Int.floor (percentilePos l q)).toNat

/-- `np.percentile` with the default linear-interpolation method, on a
non-empty array: with `s` the ascending sort, `h = q/100 * (n-1)` and
`i = floor h`, the result is `s[i] + (h - i) * (s[i+1] - s[i])`
(degenerating to `s[i]` at the top, where `s[i+1]` is clipped to `s[i]`). -/
def percentileVal (l : List ℚ) (q : ℚ) : ℚ :=
  (sortQ l).getD (percentileIdx l q) 0 +
    (percentilePos l q - (percentileIdx l q : ℚ)) *
      ((sortQ l).getD (percentileIdx l q + 1) ((sortQ l).getD (percentileIdx l q) 0) -
        (sortQ l).getD (percentileIdx l q) 0)

/-- `np.percentile` raises on an empty array. -/
def np_percentile (l : List ℚ) (q : ℚ) : Except String ℚ :=
  if l.isEmpty then Except.error "attempt to get percentile of an empty array"
  else Except.ok (percentileVal l q)

/-- The numpy legacy global generator: an infinite stream of raw draws plus
a cursor.  `mc_bootstrap.py` never calls `np.random.seed` and takes no seed
argument, so the initial state comes from process entropy: it is an
uncontrolled input of each invocation of the script. -/
structure GlobalRng where
  stream : ℕ → ℕ
  pos : ℕ

/-- `np.random.choice(returns, size=n, replace=True)` on the global
generator: `n` independent index draws (raw draw modulo the array length),
advancing the cursor by `n`.  (numpy raises on an empty input array; the
pipeline only reaches this call with a non-empty one.) -/
def np_random_choice (xs : List ℚ) (n : ℕ) (g : GlobalRng) : List ℚ × GlobalRng :=
  ((List.range n).map (fun t => xs.getD (g.stream (g.pos + t) % xs.length) 0),
   ⟨g.stream, g.pos + n⟩)

/-- The three arrays `run_monte_carlo_simulation` fills (lines 107-109),
as lists in run order. -/
structure SimOut where
  final_returns : List ℚ
  max_drawdowns : List ℚ
  equity_curves : List (List ℚ)
deriving DecidableEq

/-- The simulation loop (lines 111-128): per run, one bootstrap draw from
the shared global generator, the equity curve, its last element, and the
minimum drawdown. -/
def run_mc_loop (returns : List ℚ) (numTrades : ℕ) : ℕ → GlobalRng → SimOut × GlobalRng
| 0, g => (⟨[], [], []⟩, g)
| k + 1, g =>
    let sg := np_random_choice returns numTrades g
    let ec := equity_curve sg.1
    let rest := run_mc_loop returns numTrades k sg.2
    (⟨ec.getLastD 0 :: rest.1.final_returns,
      max_drawdown ec :: rest.1.max_drawdowns,
      ec :: rest.1.equity_curves⟩, rest.2)

/-- `run_monte_carlo_simulation` (lines 85-131): the number of trades per
simulation defaults to `len(returns)` (lines 102-103); the K runs execute in
order on the shared global generator, which is threaded through. -/
def run_monte_carlo_simulation (returns : List ℚ) (num_simulations : ℕ)
    (num_trades_per_sim : Option ℕ) (g : GlobalRng) : SimOut × GlobalRng :=
  run_mc_loop returns (num_trades_per_sim.getD returns.length) num_simulations g

/-- The bootstrap sample run `i` receives: index draws taken from stream
positions `pos + i*N .. pos + i*N + N - 1`. -/
def sampleAt (returns : List ℚ) (numTrades : ℕ) (g : GlobalRng) (i : ℕ) : List ℚ :=
  (List.range numTrades).map
    (fun t => returns.getD (g.stream (g.pos + i * numTrades + t) % returns.length) 0)

/-- A value of the results dict: an exact rational, or the square root of a
rational (the two `np.std` entries). -/
inductive PyVal
| num (q : ℚ)
| sqrtNum (q : ℚ)
deriving DecidableEq

/-- The results dict, as a key/value list in insertion order. -/
abbrev Results := List (String × PyVal)

/-- `np.mean(max_drawdowns < t) * 100` as a function of the threshold
(lines 166-168 instantiate `t` at -3, -5 and -10). -/
def prob_drawdown_lt (max_drawdowns : List ℚ) (t : ℚ) : ℚ :=
  ((max_drawdowns.countP fun x => x < t : ℕ) : ℚ) / (max_drawdowns.length : ℚ) * 100

/-- The try-body of `analyze_simulation_results` (lines 144-178), building
the results dict in insertion order.  On an empty batch numpy yields NaN for
mean/median/std and raises at the first `np.percentile` call; here the first
percentile-backed entry raises, which lands in the same except branch with
the same observable outcome. -/
def analyze_body (final_returns max_drawdowns returns : List ℚ) :
    Except String Results := do
  let frMedian ← np_percentile final_returns 50
  let fr5 ← np_percentile final_returns 5
  let fr95 ← np_percentile final_returns 95
  let ddMedian ← np_percentile max_drawdowns 50
  let dd5 ← np_percentile max_drawdowns 5
  let dd95 ← np_percentile max_drawdowns 95
  let var5 ← np_percentile final_returns 5
  let var1 ← np_percentile final_returns 1
  pure ([("final_return_mean", PyVal.num (np_mean final_returns)),
      ("final_return_median", PyVal.num frMedian),
      ("final_return_std", PyVal.sqrtNum (np_variance final_returns)),
      ("final_return_5th_percentile", PyVal.num fr5),
      ("final_return_95th_percentile", PyVal.num fr95),
      ("prob_positive_return",
        PyVal.num (((final_returns.countP fun x => 0 < x : ℕ) : ℚ) /
          (final_returns.length : ℚ) * 100)),
      ("max_drawdown_mean", PyVal.num (np_mean max_drawdowns)),
      ("max_drawdown_median", PyVal.num ddMedian),
      ("max_drawdown_std", PyVal.sqrtNum (np_variance max_drawdowns)),
      ("max_drawdown_5th_percentile", PyVal.num dd5),
      ("max_drawdown_95th_percentile", PyVal.num dd95)]
    ++ (if 0 < np_mean returns then
        [("prob_drawdown_gt_3R", PyVal.num (prob_drawdown_lt max_drawdowns (-3))),
         ("prob_drawdown_gt_5R", PyVal.num (prob_drawdown_lt max_drawdowns (-5))),
         ("prob_drawdown_gt_10R", PyVal.num (prob_drawdown_lt max_drawdowns (-10)))]
      else [])
    ++ [("var_5_percent", PyVal.num var5),
      ("var_1_percent", PyVal.num var1),
      ("expected_shortfall_5_percent",
        PyVal.num (np_mean (final_returns.filter (fun x => x ≤ var5))))])

/-- `analyze_simulation_results` with its except branch (lines 180-182): any
internal error is caught, logged, and the empty dict is returned. -/
def analyze_simulation_results (final_returns max_drawdowns returns : List ℚ) :
    Results :=
  match analyze_body final_returns max_drawdowns returns with
  | Except.ok res => res
  | Except.error _ => []

/-- `results.get(key, 0)` as used by `main` when printing (lines 360-383). -/
def results_get (results : Results) (key : String) : PyVal :=
  (results.lookup key).getD (PyVal.num 0)

/-- The returns column `prepare_returns_data` selects among the closed
trades: `r_multiple` when that column exists, else `close_profit`
(lines 62-67), before `dropna()` is applied. -/
def chosen_column (df : TradeFrame) : List PyFloat :=
  if df.has_r_multiple
    then (df.rows.filter (fun t => t.is_open == 0)).map (fun t => t.r_multiple)
    else (df.rows.filter (fun t => t.is_open == 0)).map (fun t => t.close_profit)

/-! ### Lemmas about the cumulative equity curve -/

lemma cumsum_from_length (l : List ℚ) : ∀ acc : ℚ, (cumsum_from acc l).length = l.length := by
  induction l with
  | nil => intro acc; rfl
  | cons x xs ih => intro acc; simp [cumsum_from, ih]

lemma equity_curve_length (s : List ℚ) : (equity_curve s).length = s.length + 1 := by
  simp [equity_curve, cumsum, cumsum_from_length]

lemma cons_cumsum_from_getD_succ (l : List ℚ) :
    ∀ (acc : ℚ) (i : ℕ), i < l.length →
      (acc :: cumsum_from acc l).getD (i + 1) 0 =
        (acc :: cumsum_from acc l).getD i 0 + l.getD i 0 := by
  induction l with
  | nil => intro acc i h; simp at h
  | cons x xs ih =>
      intro acc i h
      match i with
      | 0 => simp [cumsum_from]
      | j + 1 =>
          have hj : j < xs.length := by simpa using h
          have hx := ih (acc + x) j hj
          simpa [cumsum_from] using hx

lemma cons_cumsum_from_getLastD (l : List ℚ) :
    ∀ acc d : ℚ, (acc :: cumsum_from acc l).getLastD d = acc + l.sum := by
  induction l with
  | nil => intro acc d; simp [cumsum_from]
  | cons x xs ih =>
      intro acc d
      have hx := ih (acc + x) acc
      simp only [cumsum_from, List.getLastD_cons] at hx ⊢
      rw [hx, List.sum_cons]
      ring

lemma cons_cumsum_from_getD_length (l : List ℚ) :
    ∀ acc : ℚ, (acc :: cumsum_from acc l).getD l.length 0 = acc + l.sum := by
  induction l with
  | nil => intro acc; simp [cumsum_from]
  | cons x xs ih =>
      intro acc
      have hx := ih (acc + x)
      simp only [cumsum_from, List.length_cons, List.getD_cons_succ] at hx ⊢
      rw [hx, List.sum_cons]
      ring

lemma equity_curve_getD_zero (s : List ℚ) : (equity_curve s).getD 0 0 = 0 := rfl

lemma equity_curve_getD_succ (s : List ℚ) (i : ℕ) (h : i < s.length) :
    (equity_curve s).getD (i + 1) 0 = (equity_curve s).getD i 0 + s.getD i 0 :=
  cons_cumsum_from_getD_succ s 0 i h

lemma equity_curve_getLastD (s : List ℚ) : (equity_curve s).getLastD 0 = s.sum := by
  have h := cons_cumsum_from_getLastD s 0 0
  simpa [equity_curve, cumsum] using h

lemma equity_curve_getD_length (s : List ℚ) :
    (equity_curve s).getD s.length 0 = s.sum := by
  have h := cons_cumsum_from_getD_length s 0
  simpa [equity_curve, cumsum] using h

lemma equity_curve_getD_of_length (s : List ℚ) (n : ℕ) (h : s.length = n) :
    (equity_curve s).getD n 0 = s.sum := by
  subst h
  exact equity_curve_getD_length s

/-! ### Lemmas about the running maximum and the drawdown -/

lemma chain_cons_running_max_from (l : List ℚ) :
    ∀ m : ℚ, List.Chain' (· ≤ ·) (m :: running_max_from m l) := by
  induction l with
  | nil => intro m; simp [running_max_from]
  | cons x xs ih =>
      intro m
      have hx := ih (max m x)
      simpa [running_max_from] using List.Chain'.cons (le_max_left m x) hx

lemma chain_running_max (e : List ℚ) : List.Chain' (· ≤ ·) (running_max e) := by
  cases e with
  | nil => simp [running_max]
  | cons x xs => simpa [running_max] using chain_cons_running_max_from xs x

lemma zipWith_sub_running_max_from_nonpos (l : List ℚ) :
    ∀ m : ℚ, ∀ x ∈ List.zipWith (· - ·) l (running_max_from m l), x ≤ 0 := by
  induction l with
  | nil => intro m x h; simp at h
  | cons y ys ih =>
      intro m x h
      simp only [running_max_from, List.zipWith_cons_cons, List.mem_cons] at h
      rcases h with rfl | h
      · simp [le_max_right m y]
      · exact ih (max m y) x h

lemma mem_drawdown_nonpos (e : List ℚ) : ∀ x ∈ drawdown e, x ≤ 0 := by
  cases e with
  | nil => intro x h; simp [drawdown, running_max] at h
  | cons y ys =>
      intro x h
      simp only [drawdown, running_max, List.zipWith_cons_cons, List.mem_cons] at h
      rcases h with rfl | h
      · simp
      · exact zipWith_sub_running_max_from_nonpos ys y x h

lemma drawdown_equity_curve_ne_nil (s : List ℚ) : drawdown (equity_curve s) ≠ [] := by
  simp [drawdown, equity_curve, running_max, List.zipWith_cons_cons]

lemma running_max_from_of_chain (l : List ℚ) :
    ∀ m : ℚ, List.Chain' (· ≤ ·) (m :: l) → running_max_from m l = l := by
  induction l with
  | nil => intro m _; rfl
  | cons x xs ih =>
      intro m hc
      rw [List.chain'_cons] at hc
      have h1 : max m x = x := max_eq_right hc.1
      simp only [running_max_from, h1]
      rw [ih x hc.2]

lemma running_max_of_chain (e : List ℚ) (h : List.Chain' (· ≤ ·) e) :
    running_max e = e := by
  cases e with
  | nil => rfl
  | cons x xs => simp [running_max, running_max_from_of_chain xs x h]

lemma mem_zipWith_sub_self (l : List ℚ) : ∀ x ∈ List.zipWith (· - ·) l l, x = 0 := by
  induction l with
  | nil => intro x h; simp at h
  | cons y ys ih =>
      intro x h
      simp only [List.zipWith_cons_cons, List.mem_cons] at h
      rcases h with rfl | h
      · simp
      · exact ih x h

/-! ### Lemmas about `listMin` (`np.min`) -/

lemma foldl_min_le_init (l : List ℚ) : ∀ a : ℚ, l.foldl min a ≤ a := by
  induction l with
  | nil => intro a; simp
  | cons x xs ih => intro a; exact le_trans (ih (min a x)) (min_le_left a x)

lemma foldl_min_le_mem (l : List ℚ) : ∀ (a x : ℚ), x ∈ l → l.foldl min a ≤ x := by
  induction l with
  | nil => intro a x h; simp at h
  | cons y ys ih =>
      intro a x h
      rcases List.mem_cons.1 h with rfl | h
      · exact le_trans (foldl_min_le_init ys (min a x)) (min_le_right a x)
      · exact ih (min a y) x h

lemma foldl_min_mem (l : List ℚ) : ∀ a : ℚ, l.foldl min a = a ∨ l.foldl min a ∈ l := by
  induction l with
  | nil => intro a; left; rfl
  | cons x xs ih =>
      intro a
      rcases ih (min a x) with h | h
      · rcases min_cases a x with ⟨h1, _⟩ | ⟨h1, _⟩
        · left; rw [List.foldl_cons, h, h1]
        · right
          rw [List.foldl_cons, h, h1]
          exact List.mem_cons_self x xs
      · right
        rw [List.foldl_cons]
        exact List.mem_cons_of_mem x h

lemma listMin_le (l : List ℚ) (x : ℚ) (h : x ∈ l) : listMin l ≤ x := by
  cases l with
  | nil => simp at h
  | cons y ys =>
      rcases List.mem_cons.1 h with rfl | h
      · exact foldl_min_le_init ys x
      · exact foldl_min_le_mem ys y x h

lemma listMin_mem (l : List ℚ) (h : l ≠ []) : listMin l ∈ l := by
  cases l with
  | nil => exact absurd rfl h
  | cons y ys =>
      rcases foldl_min_mem ys y with h1 | h1
      · rw [listMin, h1]; exact List.mem_cons_self y ys
      · exact List.mem_cons_of_mem y h1

lemma max_drawdown_equity_nonpos (s : List ℚ) : max_drawdown (equity_curve s) ≤ 0 := by
  have hmem := listMin_mem (drawdown (equity_curve s)) (drawdown_equity_curve_ne_nil s)
  exact mem_drawdown_nonpos (equity_curve s) _ hmem

lemma max_drawdown_equity_of_chain (s : List ℚ)
    (h : List.Chain' (· ≤ ·) (equity_curve s)) : max_drawdown (equity_curve s) = 0 := by
  have hdd : drawdown (equity_curve s) = List.zipWith (· - ·) (equity_curve s) (equity_curve s) := by
    rw [drawdown, running_max_of_chain _ h]
  have hmem := listMin_mem (drawdown (equity_curve s)) (drawdown_equity_curve_ne_nil s)
  rw [hdd] at hmem
  have h0 := mem_zipWith_sub_self (equity_curve s) _ hmem
  rw [max_drawdown, hdd]
  exact h0

/-! ### Lemmas about the sort and the percentile -/

lemma insertSorted_perm (x : ℚ) (l : List ℚ) : (insertSorted x l).Perm (x :: l) := by
  induction l with
  | nil => exact List.Perm.refl _
  | cons y ys ih =>
      by_cases h : x ≤ y
      · simp [insertSorted, h]
      · simp only [insertSorted, if_neg h]
        exact (ih.cons y).trans (List.Perm.swap x y ys)

lemma sortQ_perm (l : List ℚ) : (sortQ l).Perm l := by
  induction l with
  | nil => exact List.Perm.refl _
  | cons x xs ih => exact (insertSorted_perm x (sortQ xs)).trans (ih.cons x)

lemma mem_of_mem_sortQ (l : List ℚ) (x : ℚ) (h : x ∈ sortQ l) : x ∈ l :=
  (sortQ_perm l).mem_iff.1 h

lemma sortQ_length (l : List ℚ) : (sortQ l).length = l.length :=
  (sortQ_perm l).length_eq

lemma getD_mem_of_lt (l : List ℚ) (i : ℕ) (d : ℚ) (h : i < l.length) :
    l.getD i d ∈ l := by
  rw [List.getD_eq_getElem?_getD, List.getElem?_eq_getElem h]
  exact List.getElem_mem h

lemma listMin_le_percentileVal (l : List ℚ) (q : ℚ) (hl : l ≠ [])
    (hq0 : 0 ≤ q) (hq1 : q ≤ 100) : listMin l ≤ percentileVal l q := by
  have hn : 0 < l.length := List.length_pos.2 hl
  have hn1 : (0 : ℚ) ≤ (l.length : ℚ) - 1 := by
    have h1 : (1 : ℚ) ≤ (l.length : ℚ) := by exact_mod_cast hn
    linarith
  have hdiv0 : 0 ≤ q / 100 := by positivity
  have hdiv1 : q / 100 ≤ 1 := (div_le_one (by norm_num : (0:ℚ) < 100)).2 hq1
  have hpos0 : 0 ≤ percentilePos l q := mul_nonneg hdiv0 hn1
  have hposle : percentilePos l q ≤ (l.length : ℚ) - 1 := by
    calc percentilePos l q = q / 100 * ((l.length : ℚ) - 1) := rfl
    _ ≤ 1 * ((l.length : ℚ) - 1) := mul_le_mul_of_nonneg_right hdiv1 hn1
    _ = (l.length : ℚ) - 1 := one_mul _
  have hfl0 : 0 ≤ Int.floor (percentilePos l q) := Int.floor_nonneg.2 hpos0
  have hic : ((percentileIdx l q : ℕ) : ℚ) = ((Int.floor (percentilePos l q) : ℤ) : ℚ) := by
    rw [percentileIdx]
    exact_mod_cast congrArg (fun z : ℤ => (z : ℚ)) (Int.toNat_of_nonneg hfl0)
  have hile : ((percentileIdx l q : ℕ) : ℚ) ≤ percentilePos l q := by
    rw [hic]; exact Int.floor_le _
  have hfrac : percentilePos l q - ((percentileIdx l q : ℕ) : ℚ) < 1 := by
    have h2 := Int.lt_floor_add_one (percentilePos l q)
    rw [hic]; linarith
  have hilt : percentileIdx l q < l.length := by
    by_contra hcon
    push_neg at hcon
    have h3 : (l.length : ℚ) ≤ ((percentileIdx l q : ℕ) : ℚ) := by exact_mod_cast hcon
    linarith
  have hslen : (sortQ l).length = l.length := sortQ_length l
  have hlo : listMin l ≤ (sortQ l).getD (percentileIdx l q) 0 := by
    apply listMin_le
    exact mem_of_mem_sortQ l _ (getD_mem_of_lt _ _ _ (by rw [hslen]; exact hilt))
  have hhi : listMin l ≤
      (sortQ l).getD (percentileIdx l q + 1) ((sortQ l).getD (percentileIdx l q) 0) := by
    by_cases hcase : percentileIdx l q + 1 < (sortQ l).length
    · apply listMin_le
      exact mem_of_mem_sortQ l _ (getD_mem_of_lt _ _ _ hcase)
    · push_neg at hcase
      rw [List.getD_eq_default _ _ hcase]
      exact hlo
  rw [percentileVal]
  nlinarith [sub_nonneg.2 hile, sub_nonneg.2 hlo, sub_nonneg.2 hhi, hfrac]

lemma exists_le_percentileVal (l : List ℚ) (q : ℚ) (hl : l ≠ [])
    (hq0 : 0 ≤ q) (hq1 : q ≤ 100) : ∃ x ∈ l, x ≤ percentileVal l q :=
  ⟨listMin l, listMin_mem l hl, listMin_le_percentileVal l q hl hq0 hq1⟩

lemma filter_le_percentileVal_ne_nil (l : List ℚ) (q : ℚ) (hl : l ≠ [])
    (hq0 : 0 ≤ q) (hq1 : q ≤ 100) :
    l.filter (fun x => x ≤ percentileVal l q) ≠ [] := by
  apply List.ne_nil_of_mem (a := listMin l)
  rw [List.mem_filter]
  exact ⟨listMin_mem l hl, by
    simpa using listMin_le_percentileVal l q hl hq0 hq1⟩

/-! ### Lemmas about `np.mean` and the probability entries -/

lemma np_mean_le (l : List ℚ) (v : ℚ) (hl : l ≠ []) (h : ∀ x ∈ l, x ≤ v) :
    np_mean l ≤ v := by
  have hn : (0 : ℚ) < (l.length : ℚ) := by exact_mod_cast List.length_pos.2 hl
  rw [np_mean, div_le_iff₀ hn]
  have hs := List.sum_le_card_nsmul l v h
  rwa [nsmul_eq_mul, mul_comm] at hs

lemma count_div_mul_hundred_bounds (c n : ℕ) (hn : 0 < n) (hc : c ≤ n) :
    0 ≤ (c : ℚ) / (n : ℚ) * 100 ∧ (c : ℚ) / (n : ℚ) * 100 ≤ 100 := by
  have hnq : (0 : ℚ) < (n : ℚ) := by exact_mod_cast hn
  constructor
  · positivity
  · have h1 : (c : ℚ) / (n : ℚ) ≤ 1 := (div_le_one hnq).2 (by exact_mod_cast hc)
    nlinarith

lemma prob_drawdown_lt_mono (dd : List ℚ) (t1 t2 : ℚ) (h : t2 ≤ t1) :
    prob_drawdown_lt dd t2 ≤ prob_drawdown_lt dd t1 := by
  unfold prob_drawdown_lt
  have hc : (dd.countP fun x => x < t2) ≤ (dd.countP fun x => x < t1) := by
    apply List.countP_mono_left
    intro x _ hx
    simp only [decide_eq_true_eq] at hx ⊢
    linarith
  have hcast : (((dd.countP fun x => x < t2) : ℕ) : ℚ) ≤
      (((dd.countP fun x => x < t1) : ℕ) : ℚ) := by exact_mod_cast hc
  have hdiv := div_le_div_of_nonneg_right hcast
    (by positivity : (0 : ℚ) ≤ (dd.length : ℚ))
  nlinarith

lemma prob_drawdown_lt_bounds (dd : List ℚ) (t : ℚ) (hdd : dd ≠ []) :
    0 ≤ prob_drawdown_lt dd t ∧ prob_drawdown_lt dd t ≤ 100 := by
  unfold prob_drawdown_lt
  exact count_div_mul_hundred_bounds _ _ (List.length_pos.2 hdd)
    (List.countP_le_length _)

/-! ### Lemmas about the simulation loop and the generator threading -/

lemma np_random_choice_eq (xs : List ℚ) (n : ℕ) (g : GlobalRng) :
    np_random_choice xs n g = (sampleAt xs n g 0, ⟨g.stream, g.pos + n⟩) := by
  unfold np_random_choice sampleAt
  simp

lemma sampleAt_shift (xs : List ℚ) (n : ℕ) (g : GlobalRng) (i : ℕ) :
    sampleAt xs n ⟨g.stream, g.pos + n⟩ i = sampleAt xs n g (i + 1) := by
  unfold sampleAt
  have harith : ∀ t : ℕ, g.pos + n + i * n + t = g.pos + (i + 1) * n + t := by
    intro t; ring
  simp only [harith]

lemma sampleAt_length (xs : List ℚ) (n : ℕ) (g : GlobalRng) (i : ℕ) :
    (sampleAt xs n g i).length = n := by
  simp [sampleAt]

lemma run_mc_loop_eq (returns : List ℚ) (n : ℕ) :
    ∀ (k : ℕ) (g : GlobalRng),
      run_mc_loop returns n k g =
        (⟨(List.range k).map (fun i => (equity_curve (sampleAt returns n g i)).getLastD 0),
          (List.range k).map (fun i => max_drawdown (equity_curve (sampleAt returns n g i))),
          (List.range k).map (fun i => equity_curve (sampleAt returns n g i))⟩,
         ⟨g.stream, g.pos + k * n⟩) := by
  intro k
  induction k with
  | zero =>
      intro g
      simp [run_mc_loop]
  | succ k ih =>
      intro g
      have hstep : run_mc_loop returns n (k + 1) g =
          (⟨(equity_curve (sampleAt returns n g 0)).getLastD 0 ::
              (run_mc_loop returns n k ⟨g.stream, g.pos + n⟩).1.final_returns,
            max_drawdown (equity_curve (sampleAt returns n g 0)) ::
              (run_mc_loop returns n k ⟨g.stream, g.pos + n⟩).1.max_drawdowns,
            equity_curve (sampleAt returns n g 0) ::
              (run_mc_loop returns n k ⟨g.stream, g.pos + n⟩).1.equity_curves⟩,
           (run_mc_loop returns n k ⟨g.stream, g.pos + n⟩).2) := by
        rw [run_mc_loop, np_random_choice_eq]
      rw [hstep, ih ⟨g.stream, g.pos + n⟩]
      have hpos : g.pos + n + k * n = g.pos + (k + 1) * n := by ring
      simp only [List.range_succ_eq_map, List.map_cons, List.map_map, Function.comp_def,
        sampleAt_shift, hpos]

lemma run_monte_carlo_eq (returns : List ℚ) (K : ℕ) (N : Option ℕ) (g : GlobalRng) :
    run_monte_carlo_simulation returns K N g =
      (⟨(List.range K).map
          (fun i => (equity_curve (sampleAt returns (N.getD returns.length) g i)).getLastD 0),
        (List.range K).map
          (fun i => max_drawdown (equity_curve (sampleAt returns (N.getD returns.length) g i))),
        (List.range K).map
          (fun i => equity_curve (sampleAt returns (N.getD returns.length) g i))⟩,
       ⟨g.stream, g.pos + K * N.getD returns.length⟩) :=
  run_mc_loop_eq returns (N.getD returns.length) K g

lemma getD_map_range {α : Type} (f : ℕ → α) (K i : ℕ) (h : i < K) (d : α) :
    ((List.range K).map f).getD i d = f i := by
  rw [List.getD_eq_getElem?_getD, List.getElem?_map, List.getElem?_range h]
  rfl

/-! ### Evaluation of the results dict on a non-empty batch -/

lemma analyze_eq (a b : ℚ) (fr dd r : List ℚ) :
    analyze_simulation_results (a :: fr) (b :: dd) r =
      [("final_return_mean", PyVal.num (np_mean (a :: fr))),
      ("final_return_median", PyVal.num (percentileVal (a :: fr) 50)),
      ("final_return_std", PyVal.sqrtNum (np_variance (a :: fr))),
      ("final_return_5th_percentile", PyVal.num (percentileVal (a :: fr) 5)),
      ("final_return_95th_percentile", PyVal.num (percentileVal (a :: fr) 95)),
      ("prob_positive_return",
        PyVal.num ((((a :: fr).countP fun x => 0 < x : ℕ) : ℚ) /
          ((a :: fr).length : ℚ) * 100)),
      ("max_drawdown_mean", PyVal.num (np_mean (b :: dd))),
      ("max_drawdown_median", PyVal.num (percentileVal (b :: dd) 50)),
      ("max_drawdown_std", PyVal.sqrtNum (np_variance (b :: dd))),
      ("max_drawdown_5th_percentile", PyVal.num (percentileVal (b :: dd) 5)),
      ("max_drawdown_95th_percentile", PyVal.num (percentileVal (b :: dd) 95))]
    ++ (if 0 < np_mean r then
        [("prob_drawdown_gt_3R", PyVal.num (prob_drawdown_lt (b :: dd) (-3))),
         ("prob_drawdown_gt_5R", PyVal.num (prob_drawdown_lt (b :: dd) (-5))),
         ("prob_drawdown_gt_10R", PyVal.num (prob_drawdown_lt (b :: dd) (-10)))]
      else [])
    ++ [("var_5_percent", PyVal.num (percentileVal (a :: fr) 5)),
      ("var_1_percent", PyVal.num (percentileVal (a :: fr) 1)),
      ("expected_shortfall_5_percent",
        PyVal.num (np_mean ((a :: fr).filter
          (fun x => x ≤ percentileVal (a :: fr) 5))))] := rfl

lemma lookup_prob_positive (a b : ℚ) (fr dd r : List ℚ) :
    (analyze_simulation_results (a :: fr) (b :: dd) r).lookup "prob_positive_return"
      = some (PyVal.num ((((a :: fr).countP fun x => 0 < x : ℕ) : ℚ) /
          ((a :: fr).length : ℚ) * 100)) := by
  rw [analyze_eq]; rfl

lemma lookup_prob_3R_of_pos (a b : ℚ) (fr dd r : List ℚ) (h : 0 < np_mean r) :
    (analyze_simulation_results (a :: fr) (b :: dd) r).lookup "prob_drawdown_gt_3R"
      = some (PyVal.num (prob_drawdown_lt (b :: dd) (-3))) := by
  rw [analyze_eq, if_pos h]; rfl

lemma lookup_prob_5R_of_pos (a b : ℚ) (fr dd r : List ℚ) (h : 0 < np_mean r) :
    (analyze_simulation_results (a :: fr) (b :: dd) r).lookup "prob_drawdown_gt_5R"
      = some (PyVal.num (prob_drawdown_lt (b :: dd) (-5))) := by
  rw [analyze_eq, if_pos h]; rfl

lemma lookup_prob_10R_of_pos (a b : ℚ) (fr dd r : List ℚ) (h : 0 < np_mean r) :
    (analyze_simulation_results (a :: fr) (b :: dd) r).lookup "prob_drawdown_gt_10R"
      = some (PyVal.num (prob_drawdown_lt (b :: dd) (-10))) := by
  rw [analyze_eq, if_pos h]; rfl

lemma lookup_prob_3R_of_nonpos (a b : ℚ) (fr dd r : List ℚ) (h : ¬ 0 < np_mean r) :
    (analyze_simulation_results (a :: fr) (b :: dd) r).lookup "prob_drawdown_gt_3R"
      = none := by
  rw [analyze_eq, if_neg h]; rfl

lemma lookup_prob_5R_of_nonpos (a b : ℚ) (fr dd r : List ℚ) (h : ¬ 0 < np_mean r) :
    (analyze_simulation_results (a :: fr) (b :: dd) r).lookup "prob_drawdown_gt_5R"
      = none := by
  rw [analyze_eq, if_neg h]; rfl

lemma lookup_prob_10R_of_nonpos (a b : ℚ) (fr dd r : List ℚ) (h : ¬ 0 < np_mean r) :
    (analyze_simulation_results (a :: fr) (b :: dd) r).lookup "prob_drawdown_gt_10R"
      = none := by
  rw [analyze_eq, if_neg h]; rfl

lemma lookup_var_5 (a b : ℚ) (fr dd r : List ℚ) :
    (analyze_simulation_results (a :: fr) (b :: dd) r).lookup "var_5_percent"
      = some (PyVal.num (percentileVal (a :: fr) 5)) := by
  rw [analyze_eq]
  rcases lt_or_le 0 (np_mean r) with h | h
  · rw [if_pos h]; rfl
  · rw [if_neg (not_lt.2 h)]; rfl

lemma lookup_shortfall (a b : ℚ) (fr dd r : List ℚ) :
    (analyze_simulation_results (a :: fr) (b :: dd) r).lookup "expected_shortfall_5_percent"
      = some (PyVal.num (np_mean ((a :: fr).filter
          (fun x => x ≤ percentileVal (a :: fr) 5)))) := by
  rw [analyze_eq]
  rcases lt_or_le 0 (np_mean r) with h | h
  · rw [if_pos h]; rfl
  · rw [if_neg (not_lt.2 h)]; rfl

lemma analyze_body_isOk_iff (fr dd r : List ℚ) :
    (analyze_body fr dd r).isOk = true ↔ (fr ≠ [] ∧ dd ≠ []) := by
  cases fr with
  | nil =>
      have h : (analyze_body [] dd r).isOk = false := rfl
      simp [h]
  | cons a fr =>
      cases dd with
      | nil =>
          have h : (analyze_body (a :: fr) [] r).isOk = false := rfl
          simp [h]
      | cons b dd =>
          have h : (analyze_body (a :: fr) (b :: dd) r).isOk = true := rfl
          simp [h]

lemma analyze_empty_of_error (fr dd r : List ℚ)
    (h : (analyze_body fr dd r).isOk = false) :
    analyze_simulation_results fr dd r = [] := by
  unfold analyze_simulation_results
  cases he : analyze_body fr dd r with
  | ok res => rw [he] at h; simp [Except.isOk, Except.toBool] at h
  | error e => rfl

/-! ### Claim theorems -/

/-- C2: every run `i < K` of `run_monte_carlo_simulation` stores the equity
curve `[0] ++ cumsum(sample_i)`: it has length N+1, starts at 0, entry j+1
adds the j-th sampled outcome to entry j, and the run's stored final return
is `equity_curve[N]`, which equals the arithmetic sum of that run's sampled
outcomes. -/
theorem equity_curve_run_spec (returns : List ℚ) (K : ℕ) (N : Option ℕ)
    (g : GlobalRng) (i : ℕ) (hi : i < K) :
    (run_monte_carlo_simulation returns K N g).1.equity_curves.getD i []
      = equity_curve (sampleAt returns (N.getD returns.length) g i)
  ∧ ((run_monte_carlo_simulation returns K N g).1.equity_curves.getD i []).length
      = N.getD returns.length + 1
  ∧ ((run_monte_carlo_simulation returns K N g).1.equity_curves.getD i []).getD 0 0 = 0
  ∧ (∀ j < N.getD returns.length,
      ((run_monte_carlo_simulation returns K N g).1.equity_curves.getD i []).getD (j + 1) 0
        = ((run_monte_carlo_simulation returns K N g).1.equity_curves.getD i []).getD j 0
          + (sampleAt returns (N.getD returns.length) g i).getD j 0)
  ∧ (run_monte_carlo_simulation returns K N g).1.final_returns.getD i 0
      = ((run_monte_carlo_simulation returns K N g).1.equity_curves.getD i []).getD
          (N.getD returns.length) 0
  ∧ (run_monte_carlo_simulation returns K N g).1.final_returns.getD i 0
      = (sampleAt returns (N.getD returns.length) g i).sum := by
  have hec : (run_monte_carlo_simulation returns K N g).1.equity_curves.getD i []
      = equity_curve (sampleAt returns (N.getD returns.length) g i) := by
    rw [run_monte_carlo_eq]
    exact getD_map_range _ K i hi []
  have hfr : (run_monte_carlo_simulation returns K N g).1.final_returns.getD i 0
      = (equity_curve (sampleAt returns (N.getD returns.length) g i)).getLastD 0 := by
    rw [run_monte_carlo_eq]
    exact getD_map_range _ K i hi 0
  refine ⟨hec, ?_, ?_, ?_, ?_, ?_⟩
  · rw [hec, equity_curve_length, sampleAt_length]
  · rw [hec]; rfl
  · intro j hj
    rw [hec]
    have hjs : j < (sampleAt returns (N.getD returns.length) g i).length := by
      rw [sampleAt_length]; exact hj
    exact equity_curve_getD_succ _ j hjs
  · rw [hec, hfr, equity_curve_getLastD,
      equity_curve_getD_of_length _ _ (sampleAt_length returns (N.getD returns.length) g i)]
  · rw [hfr, equity_curve_getLastD]

/-- Witness for C2: one concrete run over the outcome set `[5]` with the
default trade count and a constant entropy stream. -/
theorem equity_curve_run_spec_witness :
    0 < 1
  ∧ ((run_monte_carlo_simulation [(5:ℚ)] 1 none ⟨fun _ => 0, 0⟩).1.equity_curves.getD 0 []
      = equity_curve (sampleAt [(5:ℚ)] 1 ⟨fun _ => 0, 0⟩ 0)
    ∧ ((run_monte_carlo_simulation [(5:ℚ)] 1 none ⟨fun _ => 0, 0⟩).1.equity_curves.getD 0 []).length = 2
    ∧ ((run_monte_carlo_simulation [(5:ℚ)] 1 none ⟨fun _ => 0, 0⟩).1.equity_curves.getD 0 []).getD 0 0 = 0
    ∧ ((run_monte_carlo_simulation [(5:ℚ)] 1 none ⟨fun _ => 0, 0⟩).1.equity_curves.getD 0 []).getD 1 0
        = ((run_monte_carlo_simulation [(5:ℚ)] 1 none ⟨fun _ => 0, 0⟩).1.equity_curves.getD 0 []).getD 0 0
          + (sampleAt [(5:ℚ)] 1 ⟨fun _ => 0, 0⟩ 0).getD 0 0
    ∧ (run_monte_carlo_simulation [(5:ℚ)] 1 none ⟨fun _ => 0, 0⟩).1.final_returns.getD 0 0
        = ((run_monte_carlo_simulation [(5:ℚ)] 1 none ⟨fun _ => 0, 0⟩).1.equity_curves.getD 0 []).getD 1 0
    ∧ (run_monte_carlo_simulation [(5:ℚ)] 1 none ⟨fun _ => 0, 0⟩).1.final_returns.getD 0 0
        = (sampleAt [(5:ℚ)] 1 ⟨fun _ => 0, 0⟩ 0).sum) := by
  have h := equity_curve_run_spec [(5:ℚ)] 1 none ⟨fun _ => 0, 0⟩ 0 (by decide)
  exact ⟨by decide, h.1, h.2.1, h.2.2.1, h.2.2.2.1 0 (by decide), h.2.2.2.2.1, h.2.2.2.2.2⟩

/-- C3: on every equity curve built by the simulation (a cumulative curve
starting at 0), the running maximum is non-decreasing, every pointwise
drawdown is ≤ 0, the run's max drawdown (the minimum of the drawdowns) is
≤ 0, it equals 0 whenever the equity curve is non-decreasing, and the value
stored in `max_drawdowns[i]` is exactly this quantity for run i's curve. -/
theorem drawdown_run_spec (returns sim_returns : List ℚ) (K : ℕ) (N : Option ℕ)
    (g : GlobalRng) (i : ℕ) (hi : i < K) :
    List.Chain' (· ≤ ·) (running_max (equity_curve sim_returns))
  ∧ (∀ x ∈ drawdown (equity_curve sim_returns), x ≤ 0)
  ∧ max_drawdown (equity_curve sim_returns) ≤ 0
  ∧ (List.Chain' (· ≤ ·) (equity_curve sim_returns) →
      max_drawdown (equity_curve sim_returns) = 0)
  ∧ (run_monte_carlo_simulation returns K N g).1.max_drawdowns.getD i 0
      = max_drawdown (equity_curve (sampleAt returns (N.getD returns.length) g i))
  ∧ (run_monte_carlo_simulation returns K N g).1.max_drawdowns.getD i 0 ≤ 0 := by
  have hdd : (run_monte_carlo_simulation returns K N g).1.max_drawdowns.getD i 0
      = max_drawdown (equity_curve (sampleAt returns (N.getD returns.length) g i)) := by
    rw [run_monte_carlo_eq]
    exact getD_map_range _ K i hi 0
  refine ⟨chain_running_max _, mem_drawdown_nonpos _, max_drawdown_equity_nonpos _,
    max_drawdown_equity_of_chain _, hdd, ?_⟩
  rw [hdd]
  exact max_drawdown_equity_nonpos _

/-- Witness for C3: the monotone curve of the all-positive sample `[1, 2]`
and the concrete run of `run_monte_carlo_simulation` over `[5]`. -/
theorem drawdown_run_spec_witness :
    0 < 1
  ∧ List.Chain' (· ≤ ·) (equity_curve [(1:ℚ), 2])
  ∧ (List.Chain' (· ≤ ·) (running_max (equity_curve [(1:ℚ), 2]))
    ∧ max_drawdown (equity_curve [(1:ℚ), 2]) ≤ 0
    ∧ max_drawdown (equity_curve [(1:ℚ), 2]) = 0
    ∧ (run_monte_carlo_simulation [(5:ℚ)] 1 none ⟨fun _ => 0, 0⟩).1.max_drawdowns.getD 0 0 ≤ 0) := by
  have hch : List.Chain' (· ≤ ·) (equity_curve [(1:ℚ), 2]) := by
    norm_num [equity_curve, cumsum, cumsum_from, List.chain'_cons]
  have h := drawdown_run_spec [(5:ℚ)] [(1:ℚ), 2] 1 none ⟨fun _ => 0, 0⟩ 0 (by decide)
  exact ⟨by decide, hch, h.1, h.2.2.1, h.2.2.2.1 hch, h.2.2.2.2.2⟩

/-- C10: for a non-empty batch of terminal returns, the batch minimum is at
most the interpolated 5th percentile, so the tail selection
`final_returns <= var_5` taken in `analyze_simulation_results` is never
empty and the mean of the 5% expected shortfall is never a mean over an
empty selection. -/
theorem tail_selection_nonempty (fr : List ℚ) (hfr : fr ≠ []) :
    listMin fr ∈ fr
  ∧ listMin fr ≤ percentileVal fr 5
  ∧ fr.filter (fun x => x ≤ percentileVal fr 5) ≠ [] :=
  ⟨listMin_mem fr hfr,
   listMin_le_percentileVal fr 5 hfr (by norm_num) (by norm_num),
   filter_le_percentileVal_ne_nil fr 5 hfr (by norm_num) (by norm_num)⟩

/-- Witness for C10 at the batch `[3, 1]`. -/
theorem tail_selection_nonempty_witness :
    ([(3:ℚ), 1] ≠ [])
  ∧ (listMin [(3:ℚ), 1] ∈ [(3:ℚ), 1]
    ∧ listMin [(3:ℚ), 1] ≤ percentileVal [(3:ℚ), 1] 5
    ∧ [(3:ℚ), 1].filter (fun x => x ≤ percentileVal [(3:ℚ), 1] 5) ≠ []) :=
  ⟨by simp, tail_selection_nonempty [(3:ℚ), 1] (by simp)⟩

/-- C4: for a non-empty batch, the 5% expected shortfall stored by
`analyze_simulation_results` is exactly the mean of the terminal returns
that are ≤ VaR(5%); that selection is non-empty (so the degenerate fallback
case never arises), and CVaR(5%) ≤ VaR(5%). -/
theorem cvar_spec (fr dd r : List ℚ) (hfr : fr ≠ []) (hdd : dd ≠ []) :
    ∃ v es,
      (analyze_simulation_results fr dd r).lookup "var_5_percent" = some (PyVal.num v)
    ∧ (analyze_simulation_results fr dd r).lookup "expected_shortfall_5_percent"
        = some (PyVal.num es)
    ∧ v = percentileVal fr 5
    ∧ es = np_mean (fr.filter (fun x => x ≤ v))
    ∧ fr.filter (fun x => x ≤ v) ≠ []
    ∧ es ≤ v := by
  obtain ⟨a, fr', rfl⟩ := List.exists_cons_of_ne_nil hfr
  obtain ⟨b, dd', rfl⟩ := List.exists_cons_of_ne_nil hdd
  have hne : (a :: fr').filter (fun x => x ≤ percentileVal (a :: fr') 5) ≠ [] :=
    filter_le_percentileVal_ne_nil _ 5 (by simp) (by norm_num) (by norm_num)
  refine ⟨percentileVal (a :: fr') 5,
    np_mean ((a :: fr').filter (fun x => x ≤ percentileVal (a :: fr') 5)),
    lookup_var_5 a b fr' dd' r, lookup_shortfall a b fr' dd' r, rfl, rfl, hne, ?_⟩
  apply np_mean_le _ _ hne
  intro x hx
  simpa using (List.mem_filter.1 hx).2

/-- Witness for C4 at the batch `[1, -1]` with drawdowns `[0, -1]`. -/
theorem cvar_spec_witness :
    ([(1:ℚ), -1] ≠ [] ∧ [(0:ℚ), -1] ≠ [])
  ∧ (∃ v es,
      (analyze_simulation_results [(1:ℚ), -1] [(0:ℚ), -1] [0]).lookup "var_5_percent"
        = some (PyVal.num v)
    ∧ (analyze_simulation_results [(1:ℚ), -1] [(0:ℚ), -1] [0]).lookup
        "expected_shortfall_5_percent" = some (PyVal.num es)
    ∧ v = percentileVal [(1:ℚ), -1] 5
    ∧ es = np_mean ([(1:ℚ), -1].filter (fun x => x ≤ v))
    ∧ [(1:ℚ), -1].filter (fun x => x ≤ v) ≠ []
    ∧ es ≤ v) :=
  ⟨⟨by simp, by simp⟩, cvar_spec [(1:ℚ), -1] [(0:ℚ), -1] [0] (by simp) (by simp)⟩

/-- Counterexample to C6: on the batch `[1, -1]` (one positive out of two)
the stored `prob_positive_return` is 50 — the percentage
`count(terminal_return > 0) / K * 100` — not the claimed fraction
`count / K = 1/2`, and it does not lie in [0, 1]. -/
theorem prob_positive_percent_counterexample :
    (analyze_simulation_results [1, -1] [0, -1] [1]).lookup "prob_positive_return"
      = some (PyVal.num 50)
  ∧ (50 : ℚ) ≠ 1 / 2
  ∧ ¬ ((50 : ℚ) ≤ 1) := by
  refine ⟨?_, by norm_num, by norm_num⟩
  rw [lookup_prob_positive]
  norm_num [List.countP_cons, List.countP_nil]

/-- C6 (amended): for a non-empty batch, the stored `prob_positive_return`
equals `count(terminal_return > 0) / K * 100`, a percentage lying in
[0, 100]. -/
theorem prob_positive_spec (fr dd r : List ℚ) (hfr : fr ≠ []) (hdd : dd ≠ []) :
    (analyze_simulation_results fr dd r).lookup "prob_positive_return"
      = some (PyVal.num (((fr.countP fun x => 0 < x : ℕ) : ℚ) / (fr.length : ℚ) * 100))
  ∧ 0 ≤ ((fr.countP fun x => 0 < x : ℕ) : ℚ) / (fr.length : ℚ) * 100
  ∧ ((fr.countP fun x => 0 < x : ℕ) : ℚ) / (fr.length : ℚ) * 100 ≤ 100 := by
  obtain ⟨a, fr', rfl⟩ := List.exists_cons_of_ne_nil hfr
  obtain ⟨b, dd', rfl⟩ := List.exists_cons_of_ne_nil hdd
  have hb := count_div_mul_hundred_bounds ((a :: fr').countP fun x => 0 < x)
    (a :: fr').length (by simp) (List.countP_le_length _)
  exact ⟨lookup_prob_positive a b fr' dd' r, hb.1, hb.2⟩

/-- Witness for C6 (amended) at the batch `[1, -1]`. -/
theorem prob_positive_spec_witness :
    ([(1:ℚ), -1] ≠ [] ∧ [(0:ℚ), -1] ≠ [])
  ∧ ((analyze_simulation_results [(1:ℚ), -1] [(0:ℚ), -1] [0]).lookup "prob_positive_return"
      = some (PyVal.num ((([(1:ℚ), -1].countP fun x => 0 < x : ℕ) : ℚ) /
          (([(1:ℚ), -1].length : ℕ) : ℚ) * 100))
    ∧ 0 ≤ (([(1:ℚ), -1].countP fun x => 0 < x : ℕ) : ℚ) / (([(1:ℚ), -1].length : ℕ) : ℚ) * 100
    ∧ (([(1:ℚ), -1].countP fun x => 0 < x : ℕ) : ℚ) / (([(1:ℚ), -1].length : ℕ) : ℚ) * 100 ≤ 100) :=
  ⟨⟨by simp, by simp⟩, prob_positive_spec [(1:ℚ), -1] [(0:ℚ), -1] [0] (by simp) (by simp)⟩

/-- Counterexample to C7: with the historical outcome set `[-1]` (mean ≤ 0)
the result contains no `prob_drawdown_gt_3R` entry at all, so the claim's
"regardless of the values of the historical outcome set" fails; and when the
entry is present (outcome set `[1]`), its value for `max_drawdowns = [-4]`
is 100, the percentage `count/K * 100`, not the claimed fraction
`count/K = 1`. -/
theorem prob_threshold_counterexample :
    (analyze_simulation_results [1] [-4] [-1]).lookup "prob_drawdown_gt_3R" = none
  ∧ (analyze_simulation_results [1] [-4] [1]).lookup "prob_drawdown_gt_3R"
      = some (PyVal.num 100)
  ∧ (100 : ℚ) ≠ 1 := by
  refine ⟨?_, ?_, by norm_num⟩
  · exact lookup_prob_3R_of_nonpos 1 (-4) [] [] [-1] (by norm_num [np_mean])
  · rw [lookup_prob_3R_of_pos 1 (-4) [] [] [1] (by norm_num [np_mean])]
    norm_num [prob_drawdown_lt, List.countP_cons, List.countP_nil]

/-- C7 (amended): for a non-empty batch, when the historical outcome set has
positive mean the result stores, for each threshold t in {-3, -5, -10},
`prob_exceed(t) = count(max_drawdown < t) / K * 100`; when the historical
mean is not positive, none of the three entries is present. -/
theorem prob_threshold_spec (fr dd r : List ℚ) (hfr : fr ≠ []) (hdd : dd ≠ []) :
    (0 < np_mean r →
      ((analyze_simulation_results fr dd r).lookup "prob_drawdown_gt_3R"
          = some (PyVal.num (prob_drawdown_lt dd (-3)))
      ∧ (analyze_simulation_results fr dd r).lookup "prob_drawdown_gt_5R"
          = some (PyVal.num (prob_drawdown_lt dd (-5)))
      ∧ (analyze_simulation_results fr dd r).lookup "prob_drawdown_gt_10R"
          = some (PyVal.num (prob_drawdown_lt dd (-10)))))
  ∧ (¬ 0 < np_mean r →
      ((analyze_simulation_results fr dd r).lookup "prob_drawdown_gt_3R" = none
      ∧ (analyze_simulation_results fr dd r).lookup "prob_drawdown_gt_5R" = none
      ∧ (analyze_simulation_results fr dd r).lookup "prob_drawdown_gt_10R" = none)) := by
  obtain ⟨a, fr', rfl⟩ := List.exists_cons_of_ne_nil hfr
  obtain ⟨b, dd', rfl⟩ := List.exists_cons_of_ne_nil hdd
  exact ⟨fun h => ⟨lookup_prob_3R_of_pos a b fr' dd' r h,
      lookup_prob_5R_of_pos a b fr' dd' r h, lookup_prob_10R_of_pos a b fr' dd' r h⟩,
    fun h => ⟨lookup_prob_3R_of_nonpos a b fr' dd' r h,
      lookup_prob_5R_of_nonpos a b fr' dd' r h, lookup_prob_10R_of_nonpos a b fr' dd' r h⟩⟩

/-- Witness for C7 (amended): the positive-mean branch at the outcome set
`[1]` with drawdowns `[-4]`. -/
theorem prob_threshold_spec_witness :
    ([(1:ℚ)] ≠ [] ∧ [(-4:ℚ)] ≠ [] ∧ 0 < np_mean [(1:ℚ)])
  ∧ ((analyze_simulation_results [(1:ℚ)] [(-4:ℚ)] [1]).lookup "prob_drawdown_gt_3R"
      = some (PyVal.num (prob_drawdown_lt [(-4:ℚ)] (-3)))
    ∧ (analyze_simulation_results [(1:ℚ)] [(-4:ℚ)] [1]).lookup "prob_drawdown_gt_5R"
      = some (PyVal.num (prob_drawdown_lt [(-4:ℚ)] (-5)))
    ∧ (analyze_simulation_results [(1:ℚ)] [(-4:ℚ)] [1]).lookup "prob_drawdown_gt_10R"
      = some (PyVal.num (prob_drawdown_lt [(-4:ℚ)] (-10)))) :=
  ⟨⟨by simp, by simp, by norm_num [np_mean]⟩,
   (prob_threshold_spec [(1:ℚ)] [(-4:ℚ)] [1] (by simp) (by simp)).1
     (by norm_num [np_mean])⟩

/-- C8: the breach probability is monotone in the threshold — for t2 ≤ t1,
`prob_exceed(t2) ≤ prob_exceed(t1)` — and in particular the three stored
entries for thresholds -3, -5, -10 are non-increasing in that order. -/
theorem prob_threshold_monotone (fr dd r : List ℚ) (hfr : fr ≠ []) (hdd : dd ≠ [])
    (hr : 0 < np_mean r) :
    (∀ t1 t2 : ℚ, t2 ≤ t1 → prob_drawdown_lt dd t2 ≤ prob_drawdown_lt dd t1)
  ∧ (∃ p3 p5 p10,
      (analyze_simulation_results fr dd r).lookup "prob_drawdown_gt_3R"
        = some (PyVal.num p3)
    ∧ (analyze_simulation_results fr dd r).lookup "prob_drawdown_gt_5R"
        = some (PyVal.num p5)
    ∧ (analyze_simulation_results fr dd r).lookup "prob_drawdown_gt_10R"
        = some (PyVal.num p10)
    ∧ p10 ≤ p5 ∧ p5 ≤ p3) := by
  obtain ⟨a, fr', rfl⟩ := List.exists_cons_of_ne_nil hfr
  obtain ⟨b, dd', rfl⟩ := List.exists_cons_of_ne_nil hdd
  refine ⟨fun t1 t2 h => prob_drawdown_lt_mono _ t1 t2 h,
    ⟨prob_drawdown_lt (b :: dd') (-3), prob_drawdown_lt (b :: dd') (-5),
     prob_drawdown_lt (b :: dd') (-10),
     lookup_prob_3R_of_pos a b fr' dd' r hr, lookup_prob_5R_of_pos a b fr' dd' r hr,
     lookup_prob_10R_of_pos a b fr' dd' r hr,
     prob_drawdown_lt_mono _ (-5) (-10) (by norm_num),
     prob_drawdown_lt_mono _ (-3) (-5) (by norm_num)⟩⟩

/-- Witness for C8 at the outcome set `[1]` with drawdowns `[-4]`:
the monotone chain instantiated at thresholds -3 and -5 plus the three
stored entries. -/
theorem prob_threshold_monotone_witness :
    ([(1:ℚ)] ≠ [] ∧ [(-4:ℚ)] ≠ [] ∧ 0 < np_mean [(1:ℚ)])
  ∧ prob_drawdown_lt [(-4:ℚ)] (-5) ≤ prob_drawdown_lt [(-4:ℚ)] (-3)
  ∧ (∃ p3 p5 p10,
      (analyze_simulation_results [(1:ℚ)] [(-4:ℚ)] [1]).lookup "prob_drawdown_gt_3R"
        = some (PyVal.num p3)
    ∧ (analyze_simulation_results [(1:ℚ)] [(-4:ℚ)] [1]).lookup "prob_drawdown_gt_5R"
        = some (PyVal.num p5)
    ∧ (analyze_simulation_results [(1:ℚ)] [(-4:ℚ)] [1]).lookup "prob_drawdown_gt_10R"
        = some (PyVal.num p10)
    ∧ p10 ≤ p5 ∧ p5 ≤ p3) :=
  ⟨⟨by simp, by simp, by norm_num [np_mean]⟩,
   (prob_threshold_monotone [(1:ℚ)] [(-4:ℚ)] [1] (by simp) (by simp)
      (by norm_num [np_mean])).1 (-3) (-5) (by norm_num),
   (prob_threshold_monotone [(1:ℚ)] [(-4:ℚ)] [1] (by simp) (by simp)
      (by norm_num [np_mean])).2⟩

/-- Counterexample to C5: a trades frame whose closed trades carry a NaN and
an Infinity in the `r_multiple` column is not rejected: `prepare_returns_data`
succeeds, the NaN has been silently dropped (2 values remain out of 3
closed trades), and the Infinity passes through into the sample. -/
theorem prepare_nonfinite_counterexample :
    prepare_returns_data ⟨true,
        [⟨0, PyFloat.nan, PyFloat.val 1⟩, ⟨0, PyFloat.val 1, PyFloat.val 1⟩,
         ⟨0, PyFloat.inf, PyFloat.val 2⟩]⟩
      = Except.ok [PyFloat.val 1, PyFloat.inf]
  ∧ [PyFloat.val 1, PyFloat.inf].length ≠ 3
  ∧ PyFloat.inf ∈ [PyFloat.val 1, PyFloat.inf] :=
  ⟨rfl, by simp, by simp⟩

/-- C5 (amended): `prepare_returns_data` never raises on non-finite values.
NaN entries of the chosen column are silently removed by `dropna()`, so the
sample entering the sampler has the size of the non-NaN entries of the
column (not the size of the supplied data); infinities are kept; the only
errors are "no closed trades" and "no value left after dropna". -/
theorem prepare_returns_spec (df : TradeFrame) :
    (df.rows.filter (fun t => t.is_open == 0) ≠ [] →
      dropna (chosen_column df) ≠ [] →
      prepare_returns_data df = Except.ok (dropna (chosen_column df)))
  ∧ (∀ out, prepare_returns_data df = Except.ok out →
      (out = dropna (chosen_column df)
      ∧ PyFloat.nan ∉ out
      ∧ out.length = (chosen_column df).countP (fun x => x != PyFloat.nan))) := by
  have heq : prepare_returns_data df =
      (if (df.rows.filter (fun t => t.is_open == 0)).length = 0
        then Except.error "No closed trades found"
        else if (dropna (chosen_column df)).length = 0
          then Except.error "No valid returns data found"
          else Except.ok (dropna (chosen_column df))) := by
    unfold prepare_returns_data chosen_column
    by_cases h : df.has_r_multiple <;> simp [h]
  have hnan : PyFloat.nan ∉ dropna (chosen_column df) := by
    simp [dropna, List.mem_filter]
  constructor
  · intro h1 h2
    rw [heq, if_neg (by simpa [List.length_eq_zero] using h1),
      if_neg (by simpa [List.length_eq_zero] using h2)]
  · intro out hout
    rw [heq] at hout
    by_cases hc : (df.rows.filter (fun t => t.is_open == 0)).length = 0
    · rw [if_pos hc] at hout
      exact absurd hout (by simp)
    · rw [if_neg hc] at hout
      by_cases hd : (dropna (chosen_column df)).length = 0
      · rw [if_pos hd] at hout
        exact absurd hout (by simp)
      · rw [if_neg hd] at hout
        simp only [Except.ok.injEq] at hout
        subst hout
        exact ⟨rfl, hnan, by
          rw [dropna, ← List.countP_eq_length_filter]⟩

/-- Witness for C5 (amended): one closed trade with a NaN and one with a
finite value. -/
theorem prepare_returns_spec_witness :
    (([⟨0, PyFloat.nan, PyFloat.val 1⟩, ⟨0, PyFloat.val 2, PyFloat.val 1⟩] :
        List TradeRow).filter (fun t => t.is_open == 0) ≠ []
      ∧ dropna (chosen_column ⟨true,
          [⟨0, PyFloat.nan, PyFloat.val 1⟩, ⟨0, PyFloat.val 2, PyFloat.val 1⟩]⟩) ≠ [])
  ∧ prepare_returns_data ⟨true,
        [⟨0, PyFloat.nan, PyFloat.val 1⟩, ⟨0, PyFloat.val 2, PyFloat.val 1⟩]⟩
      = Except.ok (dropna (chosen_column ⟨true,
          [⟨0, PyFloat.nan, PyFloat.val 1⟩, ⟨0, PyFloat.val 2, PyFloat.val 1⟩]⟩))
  ∧ PyFloat.nan ∉ (dropna (chosen_column ⟨true,
        [⟨0, PyFloat.nan, PyFloat.val 1⟩, ⟨0, PyFloat.val 2, PyFloat.val 1⟩]⟩))
  ∧ (dropna (chosen_column ⟨true,
        [⟨0, PyFloat.nan, PyFloat.val 1⟩, ⟨0, PyFloat.val 2, PyFloat.val 1⟩]⟩)).length
      = (chosen_column ⟨true,
          [⟨0, PyFloat.nan, PyFloat.val 1⟩, ⟨0, PyFloat.val 2, PyFloat.val 1⟩]⟩).countP
          (fun x => x != PyFloat.nan) := by
  have h := prepare_returns_spec ⟨true,
    [⟨0, PyFloat.nan, PyFloat.val 1⟩, ⟨0, PyFloat.val 2, PyFloat.val 1⟩]⟩
  have h1 := h.1 (by simp) (by simp [chosen_column, dropna])
  have h2 := h.2 _ h1
  exact ⟨⟨by simp, by simp [chosen_column, dropna]⟩, h1, h2.2.1, h2.2.2⟩

/-- Counterexample to C9: on the empty batch the try-body of
`analyze_simulation_results` fails, but the error does not propagate — the
function returns the empty dict — and `main`'s reporting substitutes the
neutral fallback 0 for the missing statistic via `results.get(key, 0)`. -/
theorem analyze_error_counterexample :
    analyze_body [] [] [1] = Except.error "attempt to get percentile of an empty array"
  ∧ analyze_simulation_results [] [] [1] = []
  ∧ results_get (analyze_simulation_results [] [] [1]) "final_return_mean" = PyVal.num 0 :=
  ⟨rfl, rfl, rfl⟩

/-- C9 (amended): the try-body of `analyze_simulation_results` fails exactly
on an empty batch array, and in that case the except branch swallows the
error and returns the empty dict, after which every `results.get(key, 0)`
in `main` reports the neutral default 0 in place of the missing statistic. -/
theorem analyze_error_spec (fr dd r : List ℚ) :
    ((analyze_body fr dd r).isOk = false ↔ (fr = [] ∨ dd = []))
  ∧ ((fr = [] ∨ dd = []) →
      (analyze_simulation_results fr dd r = []
      ∧ ∀ key : String, results_get (analyze_simulation_results fr dd r) key
          = PyVal.num 0)) := by
  have hiff : ((analyze_body fr dd r).isOk = false) ↔ (fr = [] ∨ dd = []) := by
    rw [Bool.eq_false_iff]
    constructor
    · intro h
      by_contra hc
      push_neg at hc
      exact h ((analyze_body_isOk_iff fr dd r).2 ⟨hc.1, hc.2⟩)
    · intro h hok
      rcases (analyze_body_isOk_iff fr dd r).1 hok with ⟨h1, h2⟩
      rcases h with h | h
      · exact h1 h
      · exact h2 h
  refine ⟨hiff, fun h => ?_⟩
  have hempty := analyze_empty_of_error fr dd r (hiff.2 h)
  exact ⟨hempty, fun key => by rw [hempty]; rfl⟩

/-- Witness for C9 (amended): an empty batch of terminal returns. -/
theorem analyze_error_spec_witness :
    (([] : List ℚ) = [] ∨ ([(0:ℚ), -1] : List ℚ) = [])
  ∧ analyze_simulation_results [] [(0:ℚ), -1] [1] = []
  ∧ results_get (analyze_simulation_results [] [(0:ℚ), -1] [1]) "var_5_percent"
      = PyVal.num 0 :=
  ⟨Or.inl rfl,
   ((analyze_error_spec [] [(0:ℚ), -1] [1]).2 (Or.inl rfl)).1,
   ((analyze_error_spec [] [(0:ℚ), -1] [1]).2 (Or.inl rfl)).2 "var_5_percent"⟩

/-- Counterexample to C1: the script never seeds the global generator and
`run_monte_carlo_simulation` takes no seed, so the initial generator state
is an uncontrolled per-process input; two invocations with identical
arguments but different initial states produce different final_returns,
hence the output is not bit-identical across invocations and no per-run
sub-seed derived from a base seed exists. -/
theorem sampling_not_seed_reproducible :
    (run_monte_carlo_simulation [0, 1] 1 (some 1) ⟨fun _ => 0, 0⟩).1.final_returns
  ≠ (run_monte_carlo_simulation [0, 1] 1 (some 1) ⟨fun _ => 1, 0⟩).1.final_returns := by
  simp [run_monte_carlo_simulation, run_mc_loop, np_random_choice, equity_curve,
    cumsum, cumsum_from]

/-- C1 (amended): the bootstrap sampling draws from one shared global
generator threaded sequentially through the runs — run i consumes exactly
the stream positions pos + i*N .. pos + (i+1)*N - 1 and the cursor ends at
pos + K*N — so the outputs are a deterministic function of the outcome set,
K, N and the initial global generator state alone; reproducibility holds
only with the initial generator state fixed, there being no seed input. -/
theorem sampling_stream_characterization (returns : List ℚ) (K : ℕ) (N : Option ℕ)
    (g : GlobalRng) :
    (run_monte_carlo_simulation returns K N g).1.final_returns
      = (List.range K).map (fun i => (sampleAt returns (N.getD returns.length) g i).sum)
  ∧ (run_monte_carlo_simulation returns K N g).2
      = ⟨g.stream, g.pos + K * N.getD returns.length⟩ := by
  rw [run_monte_carlo_eq]
  exact ⟨by simp only [equity_curve_getLastD], rfl⟩

end McBootstrap
